import Mathlib

/-!
Verification of the httpskeleton request-logging core (src/main.go).

The Go source is shallowly embedded below: Go maps used as log records
become association lists (`LogData`), `map[string]interface\x7b\x7d` values
become `JVal`, the shared mutable maps reachable through a request context
become entries of an explicit `Store` (Go maps are reference values, so
mutation through one alias is visible through every alias), the
`sync.Pool` of `logWriter`s becomes a list, and a handler's interaction
with the wrapped `logWriter` and with `logDataAdd` becomes a list of
`HandlerAct`s followed by an `Outcome` (normal return or panic).
Panics are modelled with `Except GoPanic`; a Go `defer` runs on both the
normal and the panicking path, so the deferred `writers.Put` appears in
every branch of the embedding of `mwLog`.
-/

namespace HttpSkeleton

/-- JVal models a value stored in the Go log map `map[string]interface\x7b\x7d`:
a string, an integer, or a value that `json.Marshal` cannot encode
(such as a func or channel value). -/
inductive JVal
  | jstr : String → JVal
  | jint : Int → JVal
  | junenc : JVal
deriving DecidableEq, Repr

/-- LogData models one Go log map: an association list of field name to value. -/
abbrev LogData := List (String × JVal)

/-- logDataSet models the Go map assignment `data[key] = value`:
replace the binding for `key` if present, otherwise add it. -/
def logDataSet : LogData → String → JVal → LogData
  | [], k, v => [(k, v)]
  | (k1, v1) :: rest, k, v =>
    if k1 = k then (k, v) :: rest else (k1, v1) :: logDataSet rest k v

/-- lookupField models the Go map read `data[key]` (with presence). -/
def lookupField : LogData → String → Option JVal
  | [], _ => none
  | (k1, v) :: rest, k => if k1 = k then some v else lookupField rest k

/-- encodable is true when `json.Marshal` can encode the value. -/
def encodable : JVal → Bool
  | JVal.junenc => false
  | _ => true

/-- allEnc is true when every value in the record is JSON-encodable,
which is exactly when `json.Marshal` of the map succeeds. -/
def allEnc (l : LogData) : Bool :=
  l.all (fun p => encodable p.2)

/-- renderVal renders one value the way `json.Marshal` does. -/
def renderVal : JVal → String
  | JVal.jstr s => "\"" ++ s ++ "\""
  | JVal.jint n => toString n
  | JVal.junenc => ""

/-- renderRecord renders the whole record as one JSON object line. -/
def renderRecord (l : LogData) : String :=
  "\x7b" ++ String.intercalate "," (l.map (fun p => "\"" ++ p.1 ++ "\":" ++ renderVal p.2)) ++ "\x7d"

/-- jsonMarshal models `json.Marshal` on a log map: it fails exactly when
some field value is not encodable. -/
def jsonMarshal (l : LogData) : Option String :=
  if allEnc l then some (renderRecord l) else none

/-- hexDigitsAux computes the base-16 digits of `n` (least significant
first) with an explicit fuel so that it is structurally recursive. -/
def hexDigitsAux : Nat → Nat → List Nat
  | 0, _ => []
  | _ + 1, 0 => []
  | fuel + 1, n + 1 => ((n + 1) % 16) :: hexDigitsAux fuel ((n + 1) / 16)

/-- hexDigits computes the base-16 digits of `n`, least significant first. -/
def hexDigits (n : Nat) : List Nat :=
  hexDigitsAux n n

/-- sprintf08x models Go's `fmt.Sprintf("%08x", n)` for a non-negative `n`:
lowercase hexadecimal, zero-padded on the left to a minimum width of 8. -/
def sprintf08x (n : Nat) : String :=
  let hex := (hexDigits n).reverse.map Nat.digitChar
  String.mk (List.replicate (8 - hex.length) '0' ++ hex)

/-- isLowerHex is true for the sixteen lowercase hexadecimal characters. -/
def isLowerHex (c : Char) : Bool :=
  "0123456789abcdef".toList.contains c

/-- GoPanic models a Go runtime panic value observed by `recover`. -/
inductive GoPanic
  | nilDeref
  | handlerPanic : String → GoPanic
deriving DecidableEq, Repr

/-- panicText models `fmt.Sprintf("%v %s", rec, debug.Stack())` applied to
a recovered panic value; the stack-trace text is abstracted away. -/
def panicText : GoPanic → String
  | GoPanic.nilDeref => "runtime error: invalid memory address or nil pointer dereference"
  | GoPanic.handlerPanic msg => msg

/-- Store models the heap of Go log maps: Go maps are reference values, so
two aliases of the same map share one `Store` entry. -/
structure Store where
  maps : List LogData
deriving DecidableEq, Repr

/-- Store.get reads the map with the given reference. -/
def Store.get (s : Store) (i : Nat) : LogData :=
  s.maps.getD i []

/-- Store.set overwrites the map with the given reference. -/
def Store.set (s : Store) (i : Nat) (l : LogData) : Store :=
  ⟨s.maps.set i l⟩

/-- Store.alloc creates a fresh map (`make(map[string]interface\x7b\x7d)`)
and returns its reference. -/
def Store.alloc (s : Store) (l : LogData) : Store × Nat :=
  (⟨s.maps ++ [l]⟩, s.maps.length)

/-- Request models the fields of `*http.Request` that the logging core
reads: the remote address, method, URL, content length, and the request
context's `"log"` value, which is either absent or a reference to a map.
The server composed in `main` never installs a `"log"` value before
`mwLog` runs, so inbound requests have `ctxLog = none`. -/
structure Request where
  remoteAddr : String
  method : String
  url : String
  contentLength : Int
  ctxLog : Option Nat
deriving DecidableEq, Repr

/-- logDataGetReq embeds `logDataGet` (src/main.go lines 75-83) for a
non-nil request: return the context's `"log"` map when it is one,
otherwise a freshly made empty map. -/
def logDataGetReq (s : Store) (r : Request) : Store × Nat :=
  match r.ctxLog with
  | some i => (s, i)
  | none => s.alloc []

/-- logDataGetRun embeds `logDataGet` including the nil-request case:
`r.Context()` on a nil `*http.Request` dereferences the nil pointer and
panics before anything else happens. -/
def logDataGetRun (s : Store) (r : Option Request) : Except GoPanic (Store × Nat) :=
  match r with
  | none => Except.error GoPanic.nilDeref
  | some req => Except.ok (logDataGetReq s req)

/-- logDataAdd embeds `logDataAdd` (src/main.go lines 85-100). When the
context already holds a map, `data[key] = value` mutates that shared map
in place. Otherwise a fresh map receives the field, and the
`r = r.WithContext(...)` at the end only rebinds the local variable `r`,
so the fresh map is unreachable to the caller afterwards. -/
def logDataAdd (s : Store) (r : Request) (k : String) (v : JVal) : Store :=
  match r.ctxLog with
  | some i => s.set i (logDataSet (s.get i) k v)
  | none => (s.alloc [(k, v)]).1

/-- logDataReplace embeds `logDataReplace` (src/main.go lines 102-105):
it only rebinds the local variable `r`, so the caller observes no change
to any shared state. -/
def logDataReplace (s : Store) (_r : Request) (_data : LogData) : Store :=
  s

/-- logErrorRun embeds `logError` (src/main.go lines 164-174). Its first
step is `logDataGet(r)`; for the nil request that `logAsString` passes it,
this panics, so nothing after it runs. The tail (only reachable for a
non-nil request) builds the error record and logs it through
`logAsString`; that inner call is unfolded one level here, its own
failure arm collapsing to the nil dereference it would reach. -/
def logErrorRun (s : Store) (r : Option Request) (errText msg : String) :
    Except GoPanic (Store × String) := do
  let (s1, i) ← logDataGetRun s r
  let rcd := logDataSet (logDataSet (logDataSet (s1.get i)
    "event" (JVal.jstr "error")) "message" (JVal.jstr msg)) "error" (JVal.jstr errText)
  let s2 := s1.set i rcd
  match jsonMarshal rcd with
  | some line => Except.ok (s2, line)
  | none => Except.error GoPanic.nilDeref

/-- logAsStringRun embeds `logAsString` (src/main.go lines 146-152):
marshal the record; on failure call `logError(nil, err, ...)` — which
panics dereferencing the nil request — and otherwise return `string(b)`,
which for the nil byte slice of a failed marshal is the empty string. -/
def logAsStringRun (s : Store) (l : LogData) : Except GoPanic (Store × String) :=
  match jsonMarshal l with
  | some line => Except.ok (s, line)
  | none => do
    let _ ← logErrorRun s none "json: unsupported type" "unable to marshal map[string]interface\x7b\x7d"
    Except.ok (s, "")

/-- logEventRun embeds `logEvent` (src/main.go lines 155-161): fetch the
request's log map, set `event` and `message`, and emit it through
`logAsString`. The emitted record is returned alongside the store. -/
def logEventRun (s : Store) (r : Request) (event msg : String) :
    Except GoPanic (Store × LogData) :=
  let (s1, i) := logDataGetReq s r
  let rcd := logDataSet (logDataSet (s1.get i) "event" (JVal.jstr event))
    "message" (JVal.jstr msg)
  let s2 := s1.set i rcd
  (logAsStringRun s2 rcd).map (fun q => (q.1, rcd))

/-- logWriter embeds the `logWriter` struct (src/main.go lines 180-184):
the recorded status code and the `headerWritten` flag. The wrapped
`http.ResponseWriter` is modelled by threading an explicit list of sink
events next to the writer. -/
structure logWriter where
  code : Nat
  headerWritten : Bool
deriving DecidableEq, Repr

/-- SinkEvent models one operation forwarded to the underlying
`http.ResponseWriter`. -/
inductive SinkEvent
  | header : Nat → SinkEvent
  | body : SinkEvent
deriving DecidableEq, Repr

/-- WriteHeader embeds `logWriter.WriteHeader` (src/main.go lines
186-193) statement by statement: `l.headerWritten = false`, then
`if !l.headerWritten`, forwarding, recording the code, and setting the
flag inside the branch. -/
def logWriter.WriteHeader (l : logWriter) (sink : List SinkEvent) (code : Nat) :
    logWriter × List SinkEvent :=
  let l1 : logWriter := { l with headerWritten := false }
  if l1.headerWritten = false then
    ({ l1 with code := code, headerWritten := true }, sink ++ [SinkEvent.header code])
  else
    (l1, sink)

/-- Write embeds `logWriter.Write` (src/main.go lines 195-198): set the
flag and forward the body bytes. -/
def logWriter.Write (l : logWriter) (sink : List SinkEvent) :
    logWriter × List SinkEvent :=
  ({ l with headerWritten := true }, sink ++ [SinkEvent.body])

/-- Code embeds `logWriter.Code` (src/main.go lines 200-202). -/
def logWriter.Code (l : logWriter) : Nat :=
  l.code

/-- Pool models the `writers` `sync.Pool` as a bag of writers (the pool
gives no ordering guarantee; a list stands for the bag). -/
abbrev Pool := List logWriter

/-- poolGet embeds `writers.Get()`: reuse a pooled writer if one exists,
otherwise fabricate a zero-valued one as `writers.New` does. -/
def poolGet (p : Pool) : logWriter × Pool :=
  match p with
  | [] => ({ code := 0, headerWritten := false }, [])
  | lw :: rest => (lw, rest)

/-- poolPut embeds `writers.Put(lw)`. -/
def poolPut (p : Pool) (lw : logWriter) : Pool :=
  lw :: p

/-- HandlerAct models one observable action a downstream handler can take
against the substituted writer or the request's log context. -/
inductive HandlerAct
  | setStatus : Nat → HandlerAct
  | writeBody : HandlerAct
  | addLogField : String → JVal → HandlerAct
deriving DecidableEq, Repr

/-- Outcome models how the wrapped handler terminates: a normal return or
a panic carrying a message. -/
inductive Outcome
  | normal : Outcome
  | panicked : String → Outcome
deriving DecidableEq, Repr

/-- Handler models the wrapped handler (router and beyond) as the actions
it performs and the way it terminates. -/
structure Handler where
  acts : List HandlerAct
  outcome : Outcome
deriving DecidableEq, Repr

/-- runActs executes the handler's actions against the writer, the sink,
and the store of shared log maps. -/
def runActs : List HandlerAct → logWriter → List SinkEvent → Store → Request →
    logWriter × List SinkEvent × Store
  | [], lw, sink, s, _ => (lw, sink, s)
  | HandlerAct.setStatus c :: rest, lw, sink, s, r =>
    let p := logWriter.WriteHeader lw sink c
    runActs rest p.1 p.2 s r
  | HandlerAct.writeBody :: rest, lw, sink, s, r =>
    let p := logWriter.Write lw sink
    runActs rest p.1 p.2 s r
  | HandlerAct.addLogField k v :: rest, lw, sink, s, r =>
    runActs rest lw sink (logDataAdd s r k v) r

/-- Env carries the ambient quantities `mwLog` samples: the start
timestamp's unix seconds, the value returned by `rand.Int63n(1e9)`, and
the elapsed nanoseconds measured by `time.Since(start)`. -/
structure Env where
  startUnix : Int
  ridRand : Nat
  elapsedNs : Nat
deriving DecidableEq, Repr

/-- lwReset is the state `mwLog` forces on the writer it takes from the
pool: `lw.code = http.StatusOK; lw.headerWritten = false`. -/
def lwReset : logWriter :=
  { code := 200, headerWritten := false }

/-- seedLogData embeds the seven seed assignments of `mwLog`
(src/main.go lines 113-119), in source order. -/
def seedLogData (e : Env) (r : Request) (l : LogData) : LogData :=
  let l1 := logDataSet l "request_time" (JVal.jint e.startUnix)
  let l2 := logDataSet l1 "request_id" (JVal.jstr (sprintf08x e.ridRand))
  let l3 := logDataSet l2 "event" (JVal.jstr "request")
  let l4 := logDataSet l3 "remote_addr" (JVal.jstr r.remoteAddr)
  let l5 := logDataSet l4 "method" (JVal.jstr r.method)
  let l6 := logDataSet l5 "url" (JVal.jstr r.url)
  logDataSet l6 "content_length" (JVal.jint r.contentLength)

/-- MwResult is the observable result of running a middleware on one
request: the pool afterwards, the store afterwards, the structured log
records emitted (in order), and the panic escaping upwards, if any. -/
structure MwResult where
  pool : Pool
  store : Store
  lines : List LogData
  panicOut : Option GoPanic
deriving DecidableEq, Repr

/-- mwLogRun embeds the handler built by `mwLog` (src/main.go lines
109-144): seed the log map, take a writer from the pool and reset it,
run the wrapped handler, and — on normal return — record `code` and
`tts_ns` and emit the line. `defer writers.Put(lw)` runs on the normal
and on the panicking path alike, so the put appears in every branch.
The `ranOnce` gate only installs `writers.New`; it is modelled
separately (`InitState` below), and `poolGet` here stands for a pool
whose `New` is installed. -/
def mwLogRun (e : Env) (h : Handler) (pool : Pool) (s : Store) (r : Request) : MwResult :=
  let si := logDataGetReq s r
  let s2 := si.1.set si.2 (seedLogData e r (si.1.get si.2))
  let gp := poolGet pool
  let t := runActs h.acts lwReset [] s2 r
  let p2 := poolPut gp.2 t.1
  match h.outcome with
  | Outcome.panicked msg =>
    { pool := p2, store := t.2.2, lines := [], panicOut := some (GoPanic.handlerPanic msg) }
  | Outcome.normal =>
    let rcd := logDataSet (logDataSet ((t.2.2).get si.2)
      "code" (JVal.jint (Int.ofNat (logWriter.Code t.1))))
      "tts_ns" (JVal.jint (Int.ofNat (e.elapsedNs / 1000000)))
    let s4 := (t.2.2).set si.2 rcd
    match logAsStringRun s4 rcd with
    | Except.ok (s5, _line) =>
      { pool := p2, store := s5, lines := [rcd], panicOut := none }
    | Except.error gp2 =>
      { pool := p2, store := s4, lines := [], panicOut := some gp2 }

/-- mwPanicRun embeds `mwPanic` wrapped around `mwLog` (src/main.go lines
64-73 around 109-144), the composition `main` installs: run the inner
handler; when a panic escapes it, `recover` fires and
`logEvent(r, "panic", ...)` logs a panic event through the same
structured path. -/
def mwPanicRun (e : Env) (h : Handler) (pool : Pool) (s : Store) (r : Request) : MwResult :=
  let m := mwLogRun e h pool s r
  match m.panicOut with
  | none => m
  | some gp =>
    match logEventRun m.store r "panic" (panicText gp) with
    | Except.ok (s2, rcd) =>
      { pool := m.pool, store := s2, lines := m.lines ++ [rcd], panicOut := none }
    | Except.error gp2 =>
      { pool := m.pool, store := m.store, lines := m.lines, panicOut := some gp2 }

/-- InitPC is one task's position in the `ranOnce` block of `mwLog`
(src/main.go lines 125-130): about to read the flag, having read it as
false and about to run the guarded block, or past the block. -/
inductive InitPC
  | start
  | sawClear
  | done
deriving DecidableEq, Repr

/-- InitState models two request-handling goroutines racing through the
unsynchronized `ranOnce` gate: the shared flag, the number of times the
guarded block (the assignment to `writers.New`) has run, and each task's
position. -/
structure InitState where
  ranOnce : Bool
  installs : Nat
  pc1 : InitPC
  pc2 : InitPC
deriving DecidableEq, Repr

/-- stepTask advances one task by one atomic step: reading `ranOnce` is
one step, and the guarded block (`ranOnce = true; writers.New = ...`) is
another, so two tasks can both read the flag before either writes it. -/
def stepTask (ranOnce : Bool) (installs : Nat) (pc : InitPC) : Bool × Nat × InitPC :=
  match pc with
  | InitPC.start =>
    if ranOnce then (ranOnce, installs, InitPC.done)
    else (ranOnce, installs, InitPC.sawClear)
  | InitPC.sawClear => (true, installs + 1, InitPC.done)
  | InitPC.done => (ranOnce, installs, InitPC.done)

/-- runSched runs a schedule over the two tasks; `true` steps task one,
`false` steps task two. -/
def runSched : List Bool → InitState → InitState
  | [], st => st
  | b :: rest, st =>
    if b then
      let q := stepTask st.ranOnce st.installs st.pc1
      runSched rest { ranOnce := q.1, installs := q.2.1, pc1 := q.2.2, pc2 := st.pc2 }
    else
      let q := stepTask st.ranOnce st.installs st.pc2
      runSched rest { ranOnce := q.1, installs := q.2.1, pc1 := st.pc1, pc2 := q.2.2 }

/-- initState0 is the process-start state: flag clear, no installs, both
first requests about to hit the gate. -/
def initState0 : InitState :=
  { ranOnce := false, installs := 0, pc1 := InitPC.start, pc2 := InitPC.start }

/-! Helper lemmas about the embedded operations. -/

theorem lookupField_logDataSet_self (l : LogData) (k : String) (v : JVal) :
    lookupField (logDataSet l k v) k = some v := by
  induction l with
  | nil => simp [logDataSet, lookupField]
  | cons p rest ih =>
    obtain ⟨k1, v1⟩ := p
    by_cases h : k1 = k
    · simp [logDataSet, lookupField, h]
    · simp [logDataSet, lookupField, h, ih]

theorem lookupField_logDataSet_other (l : LogData) (k k2 : String) (v : JVal)
    (h : k2 ≠ k) : lookupField (logDataSet l k2 v) k = lookupField l k := by
  induction l with
  | nil => simp [logDataSet, lookupField, h]
  | cons p rest ih =>
    obtain ⟨k1, v1⟩ := p
    by_cases h1 : k1 = k2
    · subst h1
      simp [logDataSet, lookupField, h]
    · by_cases h2 : k1 = k
      · simp [logDataSet, lookupField, h1, h2, Ne.symm h]
      · simp [logDataSet, lookupField, h1, h2, ih]

theorem allEnc_logDataSet (l : LogData) (k : String) (v : JVal)
    (hl : allEnc l = true) (hv : encodable v = true) :
    allEnc (logDataSet l k v) = true := by
  induction l with
  | nil => simp [allEnc, logDataSet, hv]
  | cons p rest ih =>
    obtain ⟨k1, v1⟩ := p
    simp only [allEnc, List.all_cons, Bool.and_eq_true] at hl
    by_cases h : k1 = k
    · simp [allEnc, logDataSet, h, hv, hl.2]
    · have := ih hl.2
      simp only [allEnc] at this
      simp [allEnc, logDataSet, h, hl.1, this]

theorem allEnc_seedLogData (e : Env) (r : Request) (l : LogData)
    (hl : allEnc l = true) : allEnc (seedLogData e r l) = true := by
  unfold seedLogData
  dsimp only
  exact allEnc_logDataSet _ _ _ (allEnc_logDataSet _ _ _ (allEnc_logDataSet _ _ _
    (allEnc_logDataSet _ _ _ (allEnc_logDataSet _ _ _ (allEnc_logDataSet _ _ _
      (allEnc_logDataSet _ _ _ hl rfl) rfl) rfl) rfl) rfl) rfl) rfl

theorem Store.get_append_last (s : Store) (l : LogData) :
    Store.get ⟨s.maps ++ [l]⟩ s.maps.length = l := by
  simp [Store.get, List.getD_eq_getElem?_getD, List.getElem?_append]

theorem Store.get_append_left (s : Store) (l : LogData) (i : Nat)
    (h : i < s.maps.length) : Store.get ⟨s.maps ++ [l]⟩ i = s.get i := by
  simp [Store.get, List.getD_eq_getElem?_getD, List.getElem?_append, h]

theorem Store.get_set_at (s : Store) (i : Nat) (l : LogData)
    (h : i < s.maps.length) : (s.set i l).get i = l := by
  simp [Store.get, Store.set, List.getD_eq_getElem?_getD, List.getElem?_set_self, h]

theorem Store.length_set (s : Store) (i : Nat) (l : LogData) :
    (s.set i l).maps.length = s.maps.length := by
  simp [Store.set]

theorem WriteHeader_run (l : logWriter) (sink : List SinkEvent) (c : Nat) :
    logWriter.WriteHeader l sink c =
      ({ code := c, headerWritten := true }, sink ++ [SinkEvent.header c]) :=
  rfl

/-- statusStep folds one handler action over the recorded status code. -/
def statusStep (c : Nat) (a : HandlerAct) : Nat :=
  match a with
  | HandlerAct.setStatus n => n
  | _ => c

/-- lastStatusSpec is, word for word from the spec, the most recent value
passed to SetStatus, or the 200 default if it was never called. -/
def lastStatusSpec (acts : List HandlerAct) : Nat :=
  acts.foldl statusStep 200

theorem runActs_code (acts : List HandlerAct) :
    ∀ (lw : logWriter) (sink : List SinkEvent) (s : Store) (r : Request),
      ((runActs acts lw sink s r).1).code = acts.foldl statusStep lw.code := by
  induction acts with
  | nil => intro lw sink s r; rfl
  | cons a rest ih =>
    intro lw sink s r
    cases a with
    | setStatus c =>
      simp only [runActs, WriteHeader_run, List.foldl_cons]
      exact ih _ _ _ _
    | writeBody =>
      simp only [runActs, logWriter.Write, List.foldl_cons]
      exact ih _ _ _ _
    | addLogField k v =>
      simp only [runActs, List.foldl_cons]
      exact ih _ _ _ _

theorem runActs_store_preserve (acts : List HandlerAct) :
    ∀ (lw : logWriter) (sink : List SinkEvent) (s : Store) (r : Request),
      r.ctxLog = none → ∀ i, i < s.maps.length →
        ((runActs acts lw sink s r).2.2).get i = s.get i ∧
        s.maps.length ≤ ((runActs acts lw sink s r).2.2).maps.length := by
  induction acts with
  | nil => intro lw sink s r hc i hi; exact ⟨rfl, Nat.le_refl _⟩
  | cons a rest ih =>
    intro lw sink s r hc i hi
    cases a with
    | setStatus c => exact ih _ _ _ _ hc i hi
    | writeBody => exact ih _ _ _ _ hc i hi
    | addLogField k v =>
      have hadd : logDataAdd s r k v = ⟨s.maps ++ [[(k, v)]]⟩ := by
        simp [logDataAdd, hc, Store.alloc]
      have hi2 : i < (Store.mk (s.maps ++ [[(k, v)]])).maps.length := by
        simp
        omega
      obtain ⟨hget, hlen⟩ := ih lw sink ⟨s.maps ++ [[(k, v)]]⟩ r hc i hi2
      constructor
      · simp only [runActs, hadd]
        rw [hget, Store.get_append_left s _ i hi]
      · simp only [runActs, hadd]
        refine Nat.le_trans ?_ hlen
        simp

theorem logAsStringRun_ok (s : Store) (l : LogData) (h : allEnc l = true) :
    logAsStringRun s l = Except.ok (s, renderRecord l) := by
  simp [logAsStringRun, jsonMarshal, h]

theorem logAsStringRun_fail (s : Store) (l : LogData) (h : allEnc l = false) :
    logAsStringRun s l = Except.error GoPanic.nilDeref := by
  simp [logAsStringRun, jsonMarshal, h, logErrorRun, logDataGetRun, Bind.bind, Except.bind]

theorem mwLogRun_panicked_proj (e : Env) (h : Handler) (pool : Pool) (s : Store)
    (r : Request) (msg : String) (hp : h.outcome = Outcome.panicked msg) :
    (mwLogRun e h pool s r).lines = [] ∧
    (mwLogRun e h pool s r).panicOut = some (GoPanic.handlerPanic msg) := by
  simp [mwLogRun, hp]

theorem mwLogRun_normal_proj (e : Env) (h : Handler) (pool : Pool) (s : Store)
    (r : Request) (hc : r.ctxLog = none) (hn : h.outcome = Outcome.normal) :
    (mwLogRun e h pool s r).lines =
      [logDataSet (logDataSet (seedLogData e r [])
        "code" (JVal.jint (Int.ofNat (logWriter.Code (runActs h.acts lwReset []
          (Store.set ⟨s.maps ++ [[]]⟩ s.maps.length (seedLogData e r [])) r).1))))
        "tts_ns" (JVal.jint (Int.ofNat (e.elapsedNs / 1000000)))] ∧
    (mwLogRun e h pool s r).panicOut = none := by
  have hsi : logDataGetReq s r = (⟨s.maps ++ [[]]⟩, s.maps.length) := by
    simp [logDataGetReq, hc, Store.alloc]
  have hlen2 : s.maps.length <
      (Store.set ⟨s.maps ++ [[]]⟩ s.maps.length (seedLogData e r [])).maps.length := by
    rw [Store.length_set]; simp
  obtain ⟨hget, _hlen⟩ := runActs_store_preserve h.acts lwReset []
    (Store.set ⟨s.maps ++ [[]]⟩ s.maps.length (seedLogData e r [])) r hc s.maps.length hlen2
  have hged : (Store.set ⟨s.maps ++ [[]]⟩ s.maps.length (seedLogData e r [])).get
      s.maps.length = seedLogData e r [] :=
    Store.get_set_at _ _ _ (by simp)
  have henc : allEnc (logDataSet (logDataSet (seedLogData e r [])
      "code" (JVal.jint (Int.ofNat (logWriter.Code (runActs h.acts lwReset []
        (Store.set ⟨s.maps ++ [[]]⟩ s.maps.length (seedLogData e r [])) r).1))))
      "tts_ns" (JVal.jint (Int.ofNat (e.elapsedNs / 1000000)))) = true :=
    allEnc_logDataSet _ _ _ (allEnc_logDataSet _ _ _ (allEnc_seedLogData e r [] rfl) rfl) rfl
  simp only [mwLogRun, hsi, hn, Store.get_append_last]
  rw [hget, hged, logAsStringRun_ok _ _ henc]
  exact ⟨rfl, rfl⟩

theorem mwPanicRun_normal_proj (e : Env) (h : Handler) (pool : Pool) (s : Store)
    (r : Request) (hc : r.ctxLog = none) (hn : h.outcome = Outcome.normal) :
    (mwPanicRun e h pool s r).lines =
      [logDataSet (logDataSet (seedLogData e r [])
        "code" (JVal.jint (Int.ofNat (logWriter.Code (runActs h.acts lwReset []
          (Store.set ⟨s.maps ++ [[]]⟩ s.maps.length (seedLogData e r [])) r).1))))
        "tts_ns" (JVal.jint (Int.ofNat (e.elapsedNs / 1000000)))] ∧
    (mwPanicRun e h pool s r).panicOut = none := by
  obtain ⟨hl, hp⟩ := mwLogRun_normal_proj e h pool s r hc hn
  simp [mwPanicRun, hp, hl]

theorem logEventRun_none (s : Store) (r : Request) (ev msg : String)
    (hc : r.ctxLog = none) :
    ∃ s2, logEventRun s r ev msg =
      Except.ok (s2, [("event", JVal.jstr ev), ("message", JVal.jstr msg)]) := by
  have hsi : logDataGetReq s r = (⟨s.maps ++ [[]]⟩, s.maps.length) := by
    simp [logDataGetReq, hc, Store.alloc]
  refine ⟨Store.set ⟨s.maps ++ [[]]⟩ s.maps.length
    [("event", JVal.jstr ev), ("message", JVal.jstr msg)], ?_⟩
  simp only [logEventRun, hsi, Store.get_append_last]
  rw [logAsStringRun_ok _ (logDataSet (logDataSet ([] : LogData) "event" (JVal.jstr ev))
    "message" (JVal.jstr msg)) (by rfl)]
  rfl

theorem mwPanicRun_panicked_proj (e : Env) (h : Handler) (pool : Pool) (s : Store)
    (r : Request) (msg : String) (hc : r.ctxLog = none)
    (hp : h.outcome = Outcome.panicked msg) :
    (mwPanicRun e h pool s r).lines =
      [[("event", JVal.jstr "panic"), ("message", JVal.jstr msg)]] ∧
    (mwPanicRun e h pool s r).panicOut = none := by
  obtain ⟨hl, hp2⟩ := mwLogRun_panicked_proj e h pool s r msg hp
  obtain ⟨s2, hev⟩ := logEventRun_none (mwLogRun e h pool s r).store r "panic"
    (panicText (GoPanic.handlerPanic msg)) hc
  simp [mwPanicRun, hp2, hl, panicText] at hev ⊢
  simp [hev]

theorem hexDigitsAux_eq_digits (fuel : Nat) :
    ∀ n : Nat, n ≤ fuel → hexDigitsAux fuel n = Nat.digits 16 n := by
  induction fuel with
  | zero =>
    intro n hn
    have h0 : n = 0 := Nat.le_zero.mp hn
    subst h0
    simp [hexDigitsAux]
  | succ f ih =>
    intro n hn
    match n with
    | 0 => simp [hexDigitsAux]
    | m + 1 =>
      show ((m + 1) % 16) :: hexDigitsAux f ((m + 1) / 16) = _
      rw [Nat.digits_def' (by norm_num : (1 : ℕ) < 16) (Nat.succ_pos m)]
      congr 1
      apply ih
      have h1 : (m + 1) / 16 < m + 1 := Nat.div_lt_self (Nat.succ_pos m) (by norm_num)
      omega

theorem digitChar_lowerHex : ∀ d : Nat, d < 16 → isLowerHex (Nat.digitChar d) = true := by
  decide

theorem mwLogRun_pool (e : Env) (h : Handler) (pool : Pool) (s : Store) (r : Request) :
    (mwLogRun e h pool s r).pool =
      poolPut (poolGet pool).2 (runActs h.acts lwReset []
        ((logDataGetReq s r).1.set (logDataGetReq s r).2
          (seedLogData e r ((logDataGetReq s r).1.get (logDataGetReq s r).2))) r).1 := by
  cases ho : h.outcome with
  | panicked msg => simp [mwLogRun, ho]
  | normal =>
    simp only [mwLogRun, ho]
    split <;> rfl

/-- reqPlain is a concrete inbound request as `net/http` would deliver it
to the composed handler: no `"log"` context value is installed. -/
def reqPlain : Request :=
  { remoteAddr := "127.0.0.1:5000", method := "GET", url := "/",
    contentLength := 0, ctxLog := none }

/-- env0 is a concrete sample of the ambient quantities `mwLog` reads. -/
def env0 : Env :=
  { startUnix := 1700000000, ridRand := 305419896, elapsedNs := 2345678 }

/-! Claims. -/

/-- C1 (counterexample): on a recovered handler panic the pipeline emits
exactly one log line, but that line lacks the seed fields and `code`:
`mwLog` never reaches its emission statement, and the `"panic"` event
record built by `mwPanic` starts from a fresh empty map. -/
theorem mwPanic_single_line_missing_seeds :
    (mwPanicRun env0 ⟨[], Outcome.panicked "boom"⟩ [] ⟨[]⟩ reqPlain).lines.length = 1 ∧
    lookupField ((mwPanicRun env0 ⟨[], Outcome.panicked "boom"⟩ [] ⟨[]⟩
      reqPlain).lines.headD []) "request_time" = none ∧
    lookupField ((mwPanicRun env0 ⟨[], Outcome.panicked "boom"⟩ [] ⟨[]⟩
      reqPlain).lines.headD []) "code" = none := by
  decide

/-- C1 (amended): for every inbound request exactly one structured log
line is emitted. On normal completion it carries all seven seed fields
plus `code` and `tts_ns`; on a recovered handler panic the single line is
the `"panic"` event record, which carries only `event` and `message`. -/
theorem mwPanicRun_exactly_one_line (e : Env) (h : Handler) (pool : Pool) (s : Store)
    (r : Request) (hc : r.ctxLog = none) :
    (mwPanicRun e h pool s r).lines.length = 1 ∧
    (h.outcome = Outcome.normal →
      ∀ k ∈ (["request_time", "request_id", "event", "remote_addr", "method", "url",
        "content_length", "code", "tts_ns"] : List String),
        (lookupField ((mwPanicRun e h pool s r).lines.headD []) k).isSome = true) ∧
    (∀ msg, h.outcome = Outcome.panicked msg →
      ((mwPanicRun e h pool s r).lines.headD []).map Prod.fst = ["event", "message"] ∧
      lookupField ((mwPanicRun e h pool s r).lines.headD []) "message"
        = some (JVal.jstr msg)) := by
  cases ho : h.outcome with
  | normal =>
    obtain ⟨hl, _hp⟩ := mwPanicRun_normal_proj e h pool s r hc ho
    refine ⟨by rw [hl]; rfl, ?_, ?_⟩
    · intro _ k hk
      rw [hl]
      fin_cases hk <;> rfl
    · intro msg hmsg
      exact Outcome.noConfusion hmsg
  | panicked msg0 =>
    obtain ⟨hl, _hp⟩ := mwPanicRun_panicked_proj e h pool s r msg0 hc ho
    refine ⟨by rw [hl]; rfl, ?_, ?_⟩
    · intro hnorm
      exact Outcome.noConfusion hnorm
    · intro msg hmsg
      injection hmsg with he
      subst he
      rw [hl]
      exact ⟨rfl, rfl⟩

/-- C1 (witness): the amended claim instantiated at a concrete request
handled by a do-nothing handler. -/
theorem mwPanicRun_exactly_one_line_witness :
    reqPlain.ctxLog = none ∧
    ((mwPanicRun env0 ⟨[], Outcome.normal⟩ [] ⟨[]⟩ reqPlain).lines.length = 1 ∧
    ((⟨[], Outcome.normal⟩ : Handler).outcome = Outcome.normal →
      ∀ k ∈ (["request_time", "request_id", "event", "remote_addr", "method", "url",
        "content_length", "code", "tts_ns"] : List String),
        (lookupField ((mwPanicRun env0 ⟨[], Outcome.normal⟩ [] ⟨[]⟩
          reqPlain).lines.headD []) k).isSome = true) ∧
    (∀ msg, (⟨[], Outcome.normal⟩ : Handler).outcome = Outcome.panicked msg →
      ((mwPanicRun env0 ⟨[], Outcome.normal⟩ [] ⟨[]⟩ reqPlain).lines.headD []).map
        Prod.fst = ["event", "message"] ∧
      lookupField ((mwPanicRun env0 ⟨[], Outcome.normal⟩ [] ⟨[]⟩
        reqPlain).lines.headD []) "message" = some (JVal.jstr msg))) :=
  ⟨rfl, mwPanicRun_exactly_one_line env0 ⟨[], Outcome.normal⟩ [] ⟨[]⟩ reqPlain rfl⟩

/-- C2 (code evaluated at the failing input): a downstream handler calls
`logDataAdd(r, "custom", "v")` during a normally completing request; the
final emitted line does not contain the field, because `logDataAdd`
attaches the updated map to a locally rebound request handle that never
propagates back to `mwLog`'s map. -/
theorem logDataAdd_field_dropped_eval :
    (mwPanicRun env0 ⟨[HandlerAct.addLogField "custom" (JVal.jstr "v")], Outcome.normal⟩
      [] ⟨[]⟩ reqPlain).lines.length = 1 ∧
    lookupField ((mwPanicRun env0 ⟨[HandlerAct.addLogField "custom" (JVal.jstr "v")],
      Outcome.normal⟩ [] ⟨[]⟩ reqPlain).lines.headD []) "custom" = none := by
  decide

/-- C3: every call to `WriteHeader` on the recorder forwards the header
write to the underlying sink and records the given code, whatever the
prior recorder state: the `headerWritten` guard is assigned false
immediately before it is checked, so it never blocks the forward. -/
theorem WriteHeader_always_forwards :
    ∀ (l : logWriter) (sink : List SinkEvent) (c : Nat),
      logWriter.WriteHeader l sink c =
        ({ code := c, headerWritten := true }, sink ++ [SinkEvent.header c]) := by
  intro l sink c
  rfl

/-- C4: after the wrapped handler has returned, the recorder's `Code()`
equals the most recent value passed to `WriteHeader`, or 200 if none was
passed; in particular a handler that sets 404 and then writes body bytes
yields a log line with `code` 404. -/
theorem Code_tracks_last_setStatus :
    (∀ (acts : List HandlerAct) (sink : List SinkEvent) (s : Store) (r : Request),
      logWriter.Code (runActs acts lwReset sink s r).1 = lastStatusSpec acts) ∧
    lookupField ((mwPanicRun env0 ⟨[HandlerAct.setStatus 404, HandlerAct.writeBody],
      Outcome.normal⟩ [] ⟨[]⟩ reqPlain).lines.headD []) "code"
      = some (JVal.jint 404) := by
  constructor
  · intro acts sink s r
    exact runActs_code acts lwReset sink s r
  · decide

/-- C5: the `tts_ns` field of the emitted request line is the elapsed
nanoseconds divided by 1000000 with truncating integer division — whole
milliseconds, despite the field name. -/
theorem tts_field_is_truncated_ms (e : Env) (h : Handler) (pool : Pool) (s : Store)
    (r : Request) (hc : r.ctxLog = none) (hn : h.outcome = Outcome.normal) :
    (mwPanicRun e h pool s r).lines.length = 1 ∧
    lookupField ((mwPanicRun e h pool s r).lines.headD []) "tts_ns"
      = some (JVal.jint (Int.ofNat (e.elapsedNs / 1000000))) := by
  obtain ⟨hl, _hp⟩ := mwPanicRun_normal_proj e h pool s r hc hn
  rw [hl]
  exact ⟨rfl, rfl⟩

/-- C5 (witness): the claim instantiated at a concrete request whose
handler returns normally; 2345678 elapsed nanoseconds log as 2. -/
theorem tts_field_is_truncated_ms_witness :
    reqPlain.ctxLog = none ∧
    (⟨[], Outcome.normal⟩ : Handler).outcome = Outcome.normal ∧
    ((mwPanicRun env0 ⟨[], Outcome.normal⟩ [] ⟨[]⟩ reqPlain).lines.length = 1 ∧
    lookupField ((mwPanicRun env0 ⟨[], Outcome.normal⟩ [] ⟨[]⟩
      reqPlain).lines.headD []) "tts_ns" = some (JVal.jint (Int.ofNat (2345678 / 1000000)))) :=
  ⟨rfl, rfl, tts_field_is_truncated_ms env0 ⟨[], Outcome.normal⟩ [] ⟨[]⟩ reqPlain rfl rfl⟩

/-- C6: every generated request identifier is a string of exactly 8
lowercase hexadecimal characters: the random value lies in [0, 10^9),
which is below 16^8, and `%08x` zero-pads it to width 8. -/
theorem request_id_eight_lower_hex (n : Nat) (hn : n < 1000000000) :
    (sprintf08x n).length = 8 ∧ ∀ c ∈ (sprintf08x n).data, isLowerHex c = true := by
  have h16 : n < 16 ^ 8 := lt_of_lt_of_le hn (by norm_num)
  have hdig : hexDigits n = Nat.digits 16 n := hexDigitsAux_eq_digits n n (Nat.le_refl n)
  have hlen : (hexDigits n).length ≤ 8 := by
    rw [hdig]
    rcases Nat.eq_zero_or_pos n with h0 | hp
    · subst h0; simp
    · rw [Nat.digits_len 16 n (by norm_num) (Nat.pos_iff_ne_zero.mp hp)]
      have := Nat.log_lt_of_lt_pow (Nat.pos_iff_ne_zero.mp hp) h16
      omega
  constructor
  · show (String.mk _).length = 8
    simp only [String.length]
    rw [List.length_append, List.length_replicate, List.length_map, List.length_reverse]
    omega
  · intro c hc
    simp only [sprintf08x] at hc
    rcases List.mem_append.mp hc with h1 | h1
    · have h2 := List.eq_of_mem_replicate h1
      subst h2
      decide
    · obtain ⟨d, hd, rfl⟩ := List.mem_map.mp h1
      have hd16 : d < 16 := by
        rw [hdig] at hd
        exact Nat.digits_lt_base (by norm_num) (List.mem_reverse.mp hd)
      exact digitChar_lowerHex d hd16

/-- C6 (witness): the bound and the conclusion at the concrete draw
305419896, whose identifier is "12345678". -/
theorem request_id_eight_lower_hex_witness :
    305419896 < 1000000000 ∧
    ((sprintf08x 305419896).length = 8 ∧
      ∀ c ∈ (sprintf08x 305419896).data, isLowerHex c = true) :=
  ⟨by norm_num, request_id_eight_lower_hex 305419896 (by norm_num)⟩

/-- C7 (code evaluated at the failing input): on a record that
`json.Marshal` cannot encode, `logAsString` does not emit a fallback
error record — its call to `logError` with a nil request panics
dereferencing the nil pointer inside `logDataGet`, crashing the logging
path instead. -/
theorem serialization_fallback_crashes_eval :
    logAsStringRun ⟨[]⟩ [("f", JVal.junenc)] = Except.error GoPanic.nilDeref := rfl

/-- C8: in every invocation of the logging middleware, the writer taken
from the pool is put back by the deferred `writers.Put`, on the normal
path and on the panicking path alike. -/
theorem recorder_released_on_all_paths :
    ∀ (e : Env) (h : Handler) (pool : Pool) (s : Store) (r : Request),
      (∃ lw, (mwLogRun e h pool s r).pool = lw :: (poolGet pool).2) ∧
      (mwLogRun e h pool s r).pool.length = (poolGet pool).2.length + 1 := by
  intro e h pool s r
  rw [mwLogRun_pool]
  exact ⟨⟨_, rfl⟩, rfl⟩

/-- C9 (code evaluated at the failing interleaving): when two first
requests both read `ranOnce` as false before either writes it, the
guarded initialization block runs twice; a sequential first use runs it
once. -/
theorem ranOnce_double_init_eval :
    (runSched [true, false, true, false] initState0).installs = 2 ∧
    (runSched [true, true, false, false] initState0).installs = 1 := by
  decide

/-- C10 (counterexample): when serialization fails, `logAsString` does
not return the empty string to its caller at all. -/
theorem logAsString_no_return_cex :
    logAsStringRun ⟨[]⟩ [("g", JVal.junenc)] ≠ Except.ok (⟨[]⟩, "") := by
  intro hcon
  rw [show logAsStringRun ⟨[]⟩ [("g", JVal.junenc)] = Except.error GoPanic.nilDeref
    from rfl] at hcon
  exact Except.noConfusion hcon

/-- C10 (amended): when serialization of a record fails, `logAsString`
never returns: its fallback call `logError(nil, err, ...)` dereferences
the nil request inside `logDataGet` and panics, so neither a fallback
error record nor an empty log line is emitted. -/
theorem logAsString_fail_no_return (s : Store) (l : LogData)
    (hl : jsonMarshal l = none) :
    logAsStringRun s l = Except.error GoPanic.nilDeref := by
  cases hA : allEnc l with
  | true =>
    rw [jsonMarshal, hA] at hl
    simp at hl
  | false => exact logAsStringRun_fail s l hA

/-- C10 (witness): the amended claim at a concrete non-encodable record. -/
theorem logAsString_fail_no_return_witness :
    jsonMarshal [("g0", JVal.junenc)] = none ∧
    logAsStringRun ⟨[]⟩ [("g0", JVal.junenc)] = Except.error GoPanic.nilDeref :=
  ⟨rfl, logAsString_fail_no_return ⟨[]⟩ [("g0", JVal.junenc)] rfl⟩

end HttpSkeleton
